import Mathlib

/-!
Verification of the solster-dex order-book client library.

This file shallowly embeds the decoding and query layer of the repository:
the slab (order-book tree) account layout, the `Orderbook` facade with its
`getL2` depth aggregation, the lot/display unit conversions of `Market`,
and the borsh-style pool request codec from `packages/pool/src/schema.ts`.
Buffers are modelled as `List Nat` of byte values, JavaScript numbers as
exact rationals (`ℚ`), and `BN` big integers as `ℕ`/`ℤ`.
-/

/-! ## Market unit conversions (src/src/market.ts) -/

/-- JavaScript `Math.round`: rounds to the nearest integer, halves toward
positive infinity. -/
def jsRound (q : ℚ) : ℤ := ⌊q + 1 / 2⌋

/-- `divideBnToNumber(numerator, denominator)` from `src/src/market.ts`
lines 567-572: integer quotient plus the remainder fraction with numerator
and denominator first reduced by their GCD; the two reduced integers are
only then converted to floating point (modelled exactly in `ℚ`). -/
def divideBnToNumber (num den : ℕ) : ℚ :=
  let quotient : ℕ := num / den
  let rem : ℕ := num % den
  let g : ℕ := Nat.gcd rem den
  (quotient : ℚ) + ((rem / g : ℕ) : ℚ) / ((den / g : ℕ) : ℚ)

/-- The market parameters that the `Market` conversion methods read:
the two lot sizes from the decoded market state and the two mint decimal
counts supplied to the constructor. -/
structure MarketParams where
  baseLotSize : ℕ
  quoteLotSize : ℕ
  baseDecimals : ℕ
  quoteDecimals : ℕ
  deriving DecidableEq, Repr

/-- `Market.priceLotsToNumber` (market.ts lines 312-317):
`divideBnToNumber(price * quoteLotSize * 10^baseDecimals,
baseLotSize * 10^quoteDecimals)`. -/
def priceLotsToNumber (M : MarketParams) (price : ℕ) : ℚ :=
  divideBnToNumber (price * M.quoteLotSize * 10 ^ M.baseDecimals)
    (M.baseLotSize * 10 ^ M.quoteDecimals)

/-- `Market.baseSizeLotsToNumber` (market.ts lines 331-336):
`divideBnToNumber(size * baseLotSize, 10^baseDecimals)`. -/
def baseSizeLotsToNumber (M : MarketParams) (size : ℕ) : ℚ :=
  divideBnToNumber (size * M.baseLotSize) (10 ^ M.baseDecimals)

/-- `Market.baseSizeNumberToLots` (market.ts lines 338-344):
`new BN(Math.round(size * 10^baseDecimals)).div(baseLotSize)`.
`BN.div` truncates toward zero, which `Int.tdiv` mirrors. -/
def baseSizeNumberToLots (M : MarketParams) (size : ℚ) : ℤ :=
  Int.tdiv (jsRound (size * 10 ^ M.baseDecimals)) M.baseLotSize

theorem divideBnToNumber_eq_div (num den : ℕ) (hden : den ≠ 0) :
    divideBnToNumber num den = (num : ℚ) / den := by
  show (((num / den : ℕ) : ℚ) +
      ((num % den / Nat.gcd (num % den) den : ℕ) : ℚ) /
        ((den / Nat.gcd (num % den) den : ℕ) : ℚ)) = (num : ℚ) / den
  have hg : Nat.gcd (num % den) den ≠ 0 := by
    intro h
    exact hden (Nat.eq_zero_of_gcd_eq_zero_right h)
  have h1 : Nat.gcd (num % den) den ∣ num % den := Nat.gcd_dvd_left _ _
  have h2 : Nat.gcd (num % den) den ∣ den := Nat.gcd_dvd_right _ _
  have hgq : ((Nat.gcd (num % den) den : ℕ) : ℚ) ≠ 0 := by
    exact_mod_cast hg
  have hdq : ((den : ℕ) : ℚ) ≠ 0 := by exact_mod_cast hden
  rw [Nat.cast_div h1 hgq, Nat.cast_div h2 hgq, div_div_div_cancel_right₀ hgq]
  have hmod := Nat.div_add_mod num den
  have hq : ((den * (num / den) + num % den : ℕ) : ℚ) = (num : ℚ) := by
    rw [hmod]
  push_cast at hq
  field_simp
  linarith [hq]

theorem jsRound_natCast (m : ℕ) : jsRound ((m : ℚ)) = (m : ℤ) := by
  unfold jsRound
  rw [Int.floor_eq_iff]
  constructor
  · push_cast
    linarith
  · push_cast
    linarith

theorem floor_natCast_div_natCast (m L : ℕ) :
    ⌊(m : ℚ) / (L : ℚ)⌋ = ((m / L : ℕ) : ℤ) := by
  rw [← Int.natCast_floor_eq_floor (by positivity), Nat.floor_div_eq_div]

/-- C7: `priceLotsToNumber(p)` is computed from the exact integers
`p * quoteLotSize * 10^baseDecimals` and `baseLotSize * 10^quoteDecimals`
by exact-rational division: the GCD used for the reduction divides both the
remainder and the denominator (so the reduction is exact), the reduced parts
are coprime, and the produced value equals the exact rational quotient of
the two integers, floating-point conversion touching only the reduced
parts at the end. -/
theorem priceLotsToNumber_exact_rational (M : MarketParams) (p : ℕ)
    (hL : 0 < M.baseLotSize) :
    priceLotsToNumber M p =
      ((p * M.quoteLotSize * 10 ^ M.baseDecimals : ℕ) : ℚ) /
        ((M.baseLotSize * 10 ^ M.quoteDecimals : ℕ) : ℚ) ∧
    Nat.gcd (p * M.quoteLotSize * 10 ^ M.baseDecimals %
        (M.baseLotSize * 10 ^ M.quoteDecimals)) (M.baseLotSize * 10 ^ M.quoteDecimals) ∣
      p * M.quoteLotSize * 10 ^ M.baseDecimals % (M.baseLotSize * 10 ^ M.quoteDecimals) ∧
    Nat.gcd (p * M.quoteLotSize * 10 ^ M.baseDecimals %
        (M.baseLotSize * 10 ^ M.quoteDecimals)) (M.baseLotSize * 10 ^ M.quoteDecimals) ∣
      M.baseLotSize * 10 ^ M.quoteDecimals ∧
    Nat.Coprime
      (p * M.quoteLotSize * 10 ^ M.baseDecimals % (M.baseLotSize * 10 ^ M.quoteDecimals) /
        Nat.gcd (p * M.quoteLotSize * 10 ^ M.baseDecimals %
          (M.baseLotSize * 10 ^ M.quoteDecimals)) (M.baseLotSize * 10 ^ M.quoteDecimals))
      (M.baseLotSize * 10 ^ M.quoteDecimals /
        Nat.gcd (p * M.quoteLotSize * 10 ^ M.baseDecimals %
          (M.baseLotSize * 10 ^ M.quoteDecimals)) (M.baseLotSize * 10 ^ M.quoteDecimals)) := by
  have hden : M.baseLotSize * 10 ^ M.quoteDecimals ≠ 0 := by positivity
  refine ⟨divideBnToNumber_eq_div _ _ hden, Nat.gcd_dvd_left _ _, Nat.gcd_dvd_right _ _, ?_⟩
  apply Nat.coprime_div_gcd_div_gcd
  exact Nat.gcd_pos_of_pos_right _ (Nat.pos_of_ne_zero hden)

theorem priceLotsToNumber_exact_rational_witness :
    priceLotsToNumber ⟨2, 3, 1, 0⟩ 7 =
      ((7 * 3 * 10 ^ 1 : ℕ) : ℚ) / ((2 * 10 ^ 0 : ℕ) : ℚ) :=
  (priceLotsToNumber_exact_rational ⟨2, 3, 1, 0⟩ 7 (by norm_num)).1

/-- C3 counterexample: for `s = 3/4`, `baseDecimals = 1`, `baseLotSize = 8`,
the code computes `Math.round(7.5) = 8` first and then truncates, returning
1 lot, while `floor(s * 10^decimals / L) = floor(15/16) = 0`. -/
theorem baseSizeNumberToLots_counterexample :
    baseSizeNumberToLots ⟨8, 1, 1, 0⟩ (3 / 4) ≠
      ⌊(3 / 4 : ℚ) * 10 ^ (1 : ℕ) / ((8 : ℕ) : ℚ)⌋ := by
  have h1 : baseSizeNumberToLots ⟨8, 1, 1, 0⟩ (3 / 4) = 1 := by
    unfold baseSizeNumberToLots jsRound
    norm_num
  have h2 : ⌊(3 / 4 : ℚ) * 10 ^ (1 : ℕ) / ((8 : ℕ) : ℚ)⌋ = 0 := by
    rw [Int.floor_eq_iff]
    norm_num
  rw [h1, h2]
  norm_num

/-- C3 (amended): whenever the native quantity `s * 10^baseDecimals` is an
integer (no `Math.round` correction applies), `baseSizeNumberToLots(s)` equals
`floor(s * 10^baseDecimals / baseLotSize)`: an inexact multiple of the lot
size is truncated downward, never rounded up and never rejected. -/
theorem baseSizeNumberToLots_floor_of_integral (M : MarketParams) (s : ℚ)
    (m : ℕ) (hm : s * 10 ^ M.baseDecimals = (m : ℚ)) :
    baseSizeNumberToLots M s = ⌊s * 10 ^ M.baseDecimals / (M.baseLotSize : ℚ)⌋ := by
  unfold baseSizeNumberToLots
  rw [hm, jsRound_natCast, floor_natCast_div_natCast]
  exact_mod_cast Int.ofNat_tdiv m M.baseLotSize |>.symm

theorem baseSizeNumberToLots_floor_of_integral_witness :
    baseSizeNumberToLots ⟨3, 1, 1, 0⟩ (7 / 10) =
      ⌊(7 / 10 : ℚ) * 10 ^ (1 : ℕ) / ((3 : ℕ) : ℚ)⌋ :=
  baseSizeNumberToLots_floor_of_integral ⟨3, 1, 1, 0⟩ (7 / 10) 7 (by norm_num)

/-- C4 counterexample: for `s = 3/4`, `baseDecimals = 1`, `baseLotSize = 8`,
`Math.round` bumps the native quantity from 7.5 to 8, one whole lot, and
re-expansion yields 8/10 = 4/5 > 3/4: the round trip exceeds the input. -/
theorem baseSize_roundtrip_counterexample :
    (3 / 4 : ℚ) <
      baseSizeLotsToNumber ⟨8, 1, 1, 0⟩
        (baseSizeNumberToLots ⟨8, 1, 1, 0⟩ (3 / 4)).toNat := by
  have h1 : baseSizeNumberToLots ⟨8, 1, 1, 0⟩ (3 / 4) = 1 := by
    unfold baseSizeNumberToLots jsRound
    norm_num
  rw [h1]
  rw [show ((1 : ℤ).toNat) = 1 from rfl,
    baseSizeLotsToNumber, divideBnToNumber_eq_div _ _ (by norm_num)]
  norm_num

/-- C4 (amended): whenever the native quantity `s * 10^baseDecimals` is an
integer, re-expanding the truncated lot count via `baseSizeLotsToNumber`
never exceeds the original input `s`. -/
theorem baseSize_roundtrip_le_of_integral (M : MarketParams) (s : ℚ)
    (m : ℕ) (hm : s * 10 ^ M.baseDecimals = (m : ℚ)) :
    baseSizeLotsToNumber M (baseSizeNumberToLots M s).toNat ≤ s := by
  have hlots : (baseSizeNumberToLots M s).toNat = m / M.baseLotSize := by
    unfold baseSizeNumberToLots
    rw [hm, jsRound_natCast, ← Int.ofNat_tdiv]
    exact Int.toNat_ofNat _
  rw [hlots, baseSizeLotsToNumber,
    divideBnToNumber_eq_div _ _ (by positivity)]
  have hpow : (0 : ℚ) < (10 : ℚ) ^ M.baseDecimals := by positivity
  have hs : s = (m : ℚ) / 10 ^ M.baseDecimals := by
    field_simp
    linarith [hm]
  rw [hs]
  have hcast : ((m / M.baseLotSize * M.baseLotSize : ℕ) : ℚ) ≤ (m : ℚ) := by
    exact_mod_cast Nat.div_mul_le_self m M.baseLotSize
  push_cast
  push_cast at hcast
  exact div_le_div_of_nonneg_right hcast hpow.le

theorem baseSize_roundtrip_le_of_integral_witness :
    baseSizeLotsToNumber ⟨3, 1, 1, 0⟩
      (baseSizeNumberToLots ⟨3, 1, 1, 0⟩ (7 / 10)).toNat ≤ (7 / 10 : ℚ) :=
  baseSize_roundtrip_le_of_integral ⟨3, 1, 1, 0⟩ (7 / 10) 7 (by norm_num)

/-! ## Slab leaves and the `Orderbook` facade (src/src/market.ts, market.js) -/

/-- A decoded `leafNode` of the slab: one resting order.  The 128-bit key
carries the price in its high 64 bits; `owner` is the 32-byte public key,
kept abstract as a natural number. -/
structure LeafNode where
  ownerSlot : ℕ
  key : ℕ
  owner : ℕ
  quantity : ℕ
  deriving DecidableEq, Repr

/-- `getPriceFromKey` (market.ts line 563-565): `key.ushrn(64)`, the high
64 bits of the 128-bit order key. -/
def getPriceFromKey (key : ℕ) : ℕ := key / 2 ^ 64

/-- Modelled from the spec: `Slab.items(descending)` — the `Slab` class of
`src/slab.ts` is not under `src/` (only its layout is), and §4.2 of the spec
specifies `traverse`/`items` as an in-order-by-key depth-first walk of the
resting orders, `descending` reversing the visit order.  We model the slab
as its multiset of leaves and `items` as the key-sorted enumeration. -/
def slabItems (descending : Bool) (leaves : List LeafNode) : List LeafNode :=
  if descending then
    List.insertionSort (fun a b => b.key ≤ a.key) leaves
  else
    List.insertionSort (fun a b => a.key ≤ b.key) leaves

/-- One step of the `getL2` loop (market.ts lines 525-544), carried out on
lot-denominated `(price, size)` pairs: `closed` holds the finished levels,
`(p, q)` is the currently aggregating level, and each leaf either merges
into the current level, stops the walk when `depth` levels exist, or opens
a new level. -/
def getL2Run (depth : ℕ) (p q : ℕ) (closed : List (ℕ × ℕ)) :
    List (ℕ × ℕ) → List (ℕ × ℕ)
  | [] => closed ++ [(p, q)]
  | (p', q') :: rest =>
    if p = p' then getL2Run depth p (q + q') closed rest
    else if closed.length + 1 = depth then closed ++ [(p, q)]
    else getL2Run depth p' q' (closed ++ [(p, q)]) rest

/-- The `getL2` level accumulation loop on lot-denominated pairs. -/
def getL2Lots (depth : ℕ) : List (ℕ × ℕ) → List (ℕ × ℕ)
  | [] => []
  | (p, q) :: rest => if depth = 0 then [] else getL2Run depth p q [] rest

/-- `Orderbook.getL2(depth)` from `src/src/market.ts` lines 525-544: walk
`slab.items(descending := isBids)`, merge consecutive equal prices, stop at
`depth` levels, then map each level to
`(price, size, priceLots, sizeLots)` display form. -/
def getL2 (M : MarketParams) (isBids : Bool) (depth : ℕ)
    (leaves : List LeafNode) : List (ℚ × ℚ × ℕ × ℕ) :=
  (getL2Lots depth
      ((slabItems isBids leaves).map
        (fun l => (getPriceFromKey l.key, l.quantity)))).map
    (fun lvl =>
      (priceLotsToNumber M lvl.1, baseSizeLotsToNumber M lvl.2, lvl.1, lvl.2))

/-- `market.js` line 444 computes the display size as
`this.market.baseSizeLotsToNumber(sizeLots.mul(this.market.baseLotSize))`,
but the js `Market` class defines no `baseLotSize` property (the decoded
value lives only in `this._decoded`), so the access yields `undefined` and
`BN.mul(undefined)` throws a TypeError. -/
def jsSizeLotsMulBaseLotSize (sizeLots : ℕ) : Except String ℕ :=
  Except.error "TypeError"

/-- JavaScript `Array.prototype.map` with a callback that may throw: the
callback runs left to right per element, and a throw aborts the whole call. -/
def mapExcept {α β : Type} (f : α → Except String β) :
    List α → Except String (List β)
  | [] => Except.ok []
  | x :: xs => do
    let y ← f x
    let ys ← mapExcept f xs
    pure (y :: ys)

/-- The per-level display mapping of `market.js` getL2 (lines 442-447):
price, then `baseSizeLotsToNumber(sizeLots.mul(this.market.baseLotSize))`
— which throws, since that property is `undefined` — then the lot
columns. -/
def getL2JsLevel (M : MarketParams) (lvl : ℕ × ℕ) :
    Except String (ℚ × ℚ × ℕ × ℕ) := do
  let scaled ← jsSizeLotsMulBaseLotSize lvl.2
  pure (priceLotsToNumber M lvl.1, baseSizeLotsToNumber M scaled,
    lvl.1, lvl.2)

/-- `Orderbook.getL2(depth)` from `src/src/market.js` lines 429-448: the
same accumulation loop as market.ts, then the per-level display mapping —
which throws a TypeError on every level it is applied to. -/
def getL2Js (M : MarketParams) (isBids : Bool) (depth : ℕ)
    (leaves : List LeafNode) : Except String (List (ℚ × ℚ × ℕ × ℕ)) :=
  mapExcept (getL2JsLevel M)
    (getL2Lots depth
      ((slabItems isBids leaves).map
        (fun l => (getPriceFromKey l.key, l.quantity))))

/-- Reference aggregation: merge each run of consecutive pairs sharing a
price into one pair carrying the run's summed quantity. -/
def aggRunsCons (p q : ℕ) : List (ℕ × ℕ) → List (ℕ × ℕ)
  | [] => [(p, q)]
  | (p', q') :: rest =>
    if p = p' then aggRunsCons p (q + q') rest
    else (p, q) :: aggRunsCons p' q' rest

/-- Reference aggregation over a whole pair list. -/
def aggRuns : List (ℕ × ℕ) → List (ℕ × ℕ)
  | [] => []
  | (p, q) :: rest => aggRunsCons p q rest

theorem getL2Run_eq_take (depth : ℕ) :
    ∀ (rest : List (ℕ × ℕ)) (p q : ℕ) (closed : List (ℕ × ℕ)),
      closed.length < depth →
      getL2Run depth p q closed rest =
        closed ++ (aggRunsCons p q rest).take (depth - closed.length) := by
  intro rest
  induction rest with
  | nil =>
    intro p q closed hlt
    rw [getL2Run, aggRunsCons,
      show depth - closed.length = (depth - closed.length - 1) + 1 by omega,
      List.take_succ_cons, List.take_nil]
  | cons hd tl ih =>
    intro p q closed hlt
    obtain ⟨p', q'⟩ := hd
    by_cases hp : p = p'
    · rw [getL2Run, if_pos hp, aggRunsCons, if_pos hp, hp, ih _ _ _ hlt]
    · by_cases hd' : closed.length + 1 = depth
      · simp [getL2Run, aggRunsCons, hp, hd',
          show depth - closed.length = 1 by omega]
      · have hlt' : (closed ++ [(p, q)]).length < depth := by
          simp
          omega
        rw [getL2Run, if_neg hp, if_neg hd', ih _ _ _ hlt']
        simp [aggRunsCons, hp,
          show depth - closed.length = (depth - (closed.length + 1)) + 1 by omega,
          List.take_succ_cons]

theorem getL2Lots_eq_take (depth : ℕ) (xs : List (ℕ × ℕ)) :
    getL2Lots depth xs = (aggRuns xs).take depth := by
  cases xs with
  | nil => simp [getL2Lots, aggRuns]
  | cons hd tl =>
    obtain ⟨p, q⟩ := hd
    by_cases h : depth = 0
    · simp [getL2Lots, h]
    · rw [getL2Lots, if_neg h, aggRuns,
        getL2Run_eq_take depth tl p q [] (by simpa using Nat.pos_of_ne_zero h)]
      simp

theorem aggRunsCons_chain (lt le : ℕ → ℕ → Prop)
    (hstrict : ∀ a b, le a b → a ≠ b → lt a b) (rest : List (ℕ × ℕ)) :
    ∀ p q, List.Chain' le (p :: rest.map Prod.fst) →
      List.Chain' lt ((aggRunsCons p q rest).map Prod.fst) ∧
      ((aggRunsCons p q rest).map Prod.fst).head? = some p := by
  induction rest with
  | nil =>
    intro p q _
    simp [aggRunsCons]
  | cons hd tl ih =>
    intro p q hchain
    obtain ⟨p', q'⟩ := hd
    simp only [List.map_cons, List.chain'_cons] at hchain
    by_cases hp : p = p'
    · rw [aggRunsCons, if_pos hp, hp]
      exact ih p' (q + q') (by simpa using hchain.2)
    · rw [aggRunsCons, if_neg hp]
      obtain ⟨hih, hhead⟩ := ih p' q' (by simpa using hchain.2)
      refine ⟨?_, by simp⟩
      rw [List.map_cons, List.chain'_cons']
      refine ⟨?_, hih⟩
      intro y hy
      rw [hhead] at hy
      simp only [Option.mem_def, Option.some_inj] at hy
      subst hy
      exact hstrict p p' hchain.1 hp

theorem chain_of_sorted {α : Type} (f : α → ℕ) (S : ℕ → ℕ → Prop)
    (r : α → α → Prop) (hr : ∀ a b, r a b → S (f a) (f b)) (l : List α)
    (hl : List.Sorted r l) : List.Chain' S (l.map f) := by
  rw [List.chain'_map]
  exact List.Chain'.imp (fun a b h => hr a b h) hl.chain'

theorem aggRuns_chain (lt le : ℕ → ℕ → Prop)
    (hstrict : ∀ a b, le a b → a ≠ b → lt a b) (xs : List (ℕ × ℕ))
    (hchain : List.Chain' le (xs.map Prod.fst)) :
    List.Chain' lt ((aggRuns xs).map Prod.fst) := by
  cases xs with
  | nil => simp [aggRuns]
  | cons hd tl =>
    obtain ⟨p, q⟩ := hd
    exact (aggRunsCons_chain lt le hstrict tl p q (by simpa using hchain)).1

theorem slabItems_sorted_asc (leaves : List LeafNode) :
    List.Sorted (fun a b : LeafNode => a.key ≤ b.key) (slabItems false leaves) := by
  haveI : IsTotal LeafNode (fun a b => a.key ≤ b.key) :=
    ⟨fun a b => Nat.le_total a.key b.key⟩
  haveI : IsTrans LeafNode (fun a b => a.key ≤ b.key) :=
    ⟨fun _ _ _ h1 h2 => Nat.le_trans h1 h2⟩
  simpa [slabItems] using
    List.sorted_insertionSort (fun a b : LeafNode => a.key ≤ b.key) leaves

theorem slabItems_sorted_desc (leaves : List LeafNode) :
    List.Sorted (fun a b : LeafNode => b.key ≤ a.key) (slabItems true leaves) := by
  haveI : IsTotal LeafNode (fun a b => b.key ≤ a.key) :=
    ⟨fun a b => Or.symm (Nat.le_total a.key b.key)⟩
  haveI : IsTrans LeafNode (fun a b => b.key ≤ a.key) :=
    ⟨fun _ _ _ h1 h2 => Nat.le_trans h2 h1⟩
  simpa [slabItems] using
    List.sorted_insertionSort (fun a b : LeafNode => b.key ≤ a.key) leaves

/-- C1: for every market, side and depth, `getL2(depth)` equals the
best-price-first key-sorted walk of the resting orders with every run of
consecutive equal prices merged into one level of summed size, truncated to
the first `depth` levels; consequently at most `depth` levels are returned
and the emitted price levels are strictly ordered (descending for bids,
ascending for asks).  In particular two ask leaves at price 100 with sizes
2 and 3 aggregate to the single level `(100, 5)`, and `getL2(1)` on an ask
book with two distinct prices returns exactly the best (lowest) one. -/
theorem getL2_depth_aggregation (M : MarketParams) (isBids : Bool)
    (depth : ℕ) (leaves : List LeafNode) :
    (getL2 M isBids depth leaves =
      ((aggRuns ((slabItems isBids leaves).map
          (fun l => (getPriceFromKey l.key, l.quantity)))).take depth).map
        (fun lvl => (priceLotsToNumber M lvl.1, baseSizeLotsToNumber M lvl.2,
          lvl.1, lvl.2))) ∧
    (getL2 M isBids depth leaves).length ≤ depth ∧
    List.Chain'
      (fun a b => if isBids then b.2.2.1 < a.2.2.1 else a.2.2.1 < b.2.2.1)
      (getL2 M isBids depth leaves) ∧
    getL2 M false 2
        [⟨1, 100 * 2 ^ 64 + 1, 11, 2⟩, ⟨2, 100 * 2 ^ 64 + 2, 12, 3⟩] =
      [(priceLotsToNumber M 100, baseSizeLotsToNumber M 5, 100, 5)] ∧
    getL2 M false 1
        [⟨1, 100 * 2 ^ 64, 11, 2⟩, ⟨2, 101 * 2 ^ 64, 12, 3⟩] =
      [(priceLotsToNumber M 100, baseSizeLotsToNumber M 2, 100, 2)] := by
  have h0 : getL2 M isBids depth leaves =
      ((aggRuns ((slabItems isBids leaves).map
          (fun l => (getPriceFromKey l.key, l.quantity)))).take depth).map
        (fun lvl => (priceLotsToNumber M lvl.1, baseSizeLotsToNumber M lvl.2,
          lvl.1, lvl.2)) := by
    rw [getL2, getL2Lots_eq_take]
  refine ⟨h0, ?_, ?_, ?_, ?_⟩
  · rw [h0]
    simp [List.length_take]
  · rw [h0]
    apply (List.chain'_map _).mpr
    cases isBids with
    | false =>
      show List.Chain' (fun a b : ℕ × ℕ => a.1 < b.1)
        ((aggRuns ((slabItems false leaves).map
          (fun l => (getPriceFromKey l.key, l.quantity)))).take depth)
      apply List.Chain'.take
      apply (List.chain'_map Prod.fst).mp
      apply aggRuns_chain (· < ·) (· ≤ ·)
        (fun a b h hne => lt_of_le_of_ne h hne)
      rw [List.map_map]
      exact chain_of_sorted (fun l : LeafNode => getPriceFromKey l.key)
        (· ≤ ·) (fun a b => a.key ≤ b.key)
        (fun a b h => Nat.div_le_div_right h)
        (slabItems false leaves) (slabItems_sorted_asc leaves)
    | true =>
      show List.Chain' (fun a b : ℕ × ℕ => b.1 < a.1)
        ((aggRuns ((slabItems true leaves).map
          (fun l => (getPriceFromKey l.key, l.quantity)))).take depth)
      apply List.Chain'.take
      apply (@List.chain'_map ℕ (ℕ × ℕ) (fun a b : ℕ => b < a) Prod.fst _).mp
      apply aggRuns_chain (fun a b => b < a) (fun a b => b ≤ a)
        (fun a b h hne => lt_of_le_of_ne h (Ne.symm hne))
      rw [List.map_map]
      exact chain_of_sorted (fun l : LeafNode => getPriceFromKey l.key)
        (fun a b => b ≤ a) (fun a b => b.key ≤ a.key)
        (fun a b h => Nat.div_le_div_right h)
        (slabItems true leaves) (slabItems_sorted_desc leaves)
  · have e1 : getL2Lots 2
        (((slabItems false
          [⟨1, 100 * 2 ^ 64 + 1, 11, 2⟩, ⟨2, 100 * 2 ^ 64 + 2, 12, 3⟩])).map
          (fun l => (getPriceFromKey l.key, l.quantity))) = [(100, 5)] := by
      decide
    rw [getL2, e1]
    simp
  · have e2 : getL2Lots 1
        (((slabItems false
          [⟨1, 100 * 2 ^ 64, 11, 2⟩, ⟨2, 101 * 2 ^ 64, 12, 3⟩])).map
          (fun l => (getPriceFromKey l.key, l.quantity))) = [(100, 2)] := by
      decide
    rw [getL2, e2]
    simp

/-- C10 counterexample: for a market with `baseLotSize = 2` and an ask
book holding one resting order of one lot, the two `getL2` implementations
are not extensionally equal: `market.ts` returns the level list while
`market.js` throws a TypeError on it (line 444 reads
`this.market.baseLotSize`, a property the js `Market` class never
defines, and `BN.mul(undefined)` throws). -/
theorem getL2Js_throws_counterexample :
    getL2Js ⟨2, 1, 0, 0⟩ false 1 [⟨0, 2 ^ 64, 0, 1⟩] ≠
      Except.ok (getL2 ⟨2, 1, 0, 0⟩ false 1 [⟨0, 2 ^ 64, 0, 1⟩]) := by
  have hl : getL2Lots 1 ((slabItems false [⟨0, 2 ^ 64, 0, 1⟩]).map
      (fun l => (getPriceFromKey l.key, l.quantity))) = [(1, 1)] := by
    decide
  have he : getL2Js ⟨2, 1, 0, 0⟩ false 1 [⟨0, 2 ^ 64, 0, 1⟩] =
      Except.error "TypeError" := by
    rw [getL2Js, hl]
    rfl
  rw [he]
  intro h
  exact Except.noConfusion h

/-- C10 (amended): the two `getL2` implementations agree only on inputs
where the level list is empty — both then return an empty sequence — and
on every input where `market.ts` returns at least one level, `market.js`
instead throws a TypeError, because line 444 reads
`this.market.baseLotSize`, a property the js `Market` class does not
define, so `sizeLots.mul(undefined)` throws before any level is
produced. -/
theorem getL2Js_throws_unless_empty (M : MarketParams) (isBids : Bool)
    (depth : ℕ) (leaves : List LeafNode) :
    (getL2 M isBids depth leaves = [] →
      getL2Js M isBids depth leaves = Except.ok []) ∧
    (getL2 M isBids depth leaves ≠ [] →
      getL2Js M isBids depth leaves = Except.error "TypeError") := by
  constructor
  · intro h
    cases hxs : getL2Lots depth
        ((slabItems isBids leaves).map
          (fun l => (getPriceFromKey l.key, l.quantity))) with
    | nil =>
      rw [getL2Js, hxs]
      rfl
    | cons a as =>
      rw [getL2, hxs] at h
      simp at h
  · intro h
    cases hxs : getL2Lots depth
        ((slabItems isBids leaves).map
          (fun l => (getPriceFromKey l.key, l.quantity))) with
    | nil =>
      rw [getL2, hxs] at h
      simp at h
    | cons a as =>
      rw [getL2Js, hxs]
      rfl

theorem getL2Js_throws_unless_empty_witness :
    getL2Js ⟨2, 1, 0, 0⟩ false 1 [⟨0, 2 ^ 64, 0, 1⟩] =
      Except.error "TypeError" := by
  apply (getL2Js_throws_unless_empty ⟨2, 1, 0, 0⟩ false 1
    [⟨0, 2 ^ 64, 0, 1⟩]).2
  have hl : getL2Lots 1 ((slabItems false [⟨0, 2 ^ 64, 0, 1⟩]).map
      (fun l => (getPriceFromKey l.key, l.quantity))) = [(1, 1)] := by
    decide
  rw [getL2, hl]
  simp

/-- The seven named account flags packed by `accountFlagsLayout` (the
`WideBits` layout enumerated in `src/src/market-state.js` lines 5-15):
`initialized, market, openOrders, requestQueue, eventQueue, bids, asks`. -/
structure AccountFlags where
  initialized : Bool
  market : Bool
  openOrders : Bool
  requestQueue : Bool
  eventQueue : Bool
  bids : Bool
  asks : Bool
  deriving DecidableEq, Repr

/-- A constructed `Orderbook` (market.ts lines 506-518): the side flag and
the decoded slab leaves. -/
structure Orderbook where
  isBids : Bool
  slab : List LeafNode
  deriving DecidableEq, Repr

/-- The `Orderbook` constructor (market.ts lines 511-518): it throws
`Invalid orderbook` when `!accountFlags.initialized ||
!(accountFlags.bids ^ accountFlags.asks)`, and otherwise records
`isBids = accountFlags.bids` and the slab. -/
def Orderbook.create (flags : AccountFlags) (slab : List LeafNode) :
    Except String Orderbook :=
  if !flags.initialized || !(flags.bids ^^ flags.asks) then
    Except.error "Invalid orderbook"
  else
    Except.ok ⟨flags.bids, slab⟩

/-- C8: constructing an `Orderbook` fails exactly when the decoded account
flags lack `initialized` or do not set exactly one of `bids`/`asks`; on
success the orderbook's side equals the `bids` flag (and the slab is kept). -/
theorem orderbook_create_iff (flags : AccountFlags) (slab : List LeafNode) :
    ((∃ e, Orderbook.create flags slab = Except.error e) ↔
      ¬(flags.initialized = true ∧ flags.bids ≠ flags.asks)) ∧
    ∀ ob, Orderbook.create flags slab = Except.ok ob →
      ob.isBids = flags.bids ∧ ob.slab = slab := by
  obtain ⟨i, m, o, r, e, b, a⟩ := flags
  cases i <;> cases b <;> cases a <;> simp [Orderbook.create]

theorem orderbook_create_iff_witness :
    (⟨true, []⟩ : Orderbook).isBids = true ∧
      (⟨true, []⟩ : Orderbook).slab = ([] : List LeafNode) :=
  (orderbook_create_iff ⟨true, true, false, false, false, true, false⟩ []).2
    ⟨true, []⟩ rfl

/-! ## Slab account layout (src/unnamed/part_002, the slab layout module) -/

/-- Read `w` little-endian bytes as an unsigned integer, returning the
value and the remaining buffer; fails on truncation. -/
def readLE : ℕ → List ℕ → Option (ℕ × List ℕ)
  | 0, bs => some (0, bs)
  | _ + 1, [] => none
  | w + 1, b :: bs =>
    match readLE w bs with
    | none => none
    | some (v, rest) => some (b + 256 * v, rest)

/-- The `zeros(n)` spacer layout used by the slab header (from the shared
layout helpers; the spec calls these "reserved/zero spacers"): consume `n`
bytes, all of which must be zero. -/
def readZeros : ℕ → List ℕ → Option (List ℕ)
  | 0, bs => some bs
  | _ + 1, [] => none
  | n + 1, b :: bs => if b = 0 then readZeros n bs else none

/-- The five named `u32` fields of `SLAB_HEADER_LAYOUT`. -/
structure SlabHeader where
  bumpIndex : ℕ
  freeListLen : ℕ
  freeListHead : ℕ
  root : ℕ
  leafCount : ℕ
  deriving DecidableEq, Repr

/-- A decoded 64-byte slab node: the `u32` tag selects one of the five
registered variants of `SLAB_NODE_LAYOUT`; any other tag falls through to
the union's `blob(60)` default layout. -/
inductive SlabNode where
  | uninitialized
  | innerNode (prefixLen : ℕ) (key : ℕ) (child0 : ℕ) (child1 : ℕ)
  | leafNode (leaf : LeafNode)
  | freeNode (next : ℕ)
  | lastFreeNode
  | defaultNode (tag : ℕ) (blob : List ℕ)
  deriving DecidableEq, Repr

/-- Decode one 64-byte node of `SLAB_NODE_LAYOUT`
(src/unnamed/part_002 lines 18-37): a `u32` tag followed by a 60-byte body
interpreted per variant (`uninitialized`, `innerNode`, `leafNode`,
`freeNode`, `lastFreeNode`); the whole node always spans 64 bytes. -/
def readNode (bs : List ℕ) : Option (SlabNode × List ℕ) := do
  let (tag, rest) ← readLE 4 bs
  if rest.length < 60 then none else
  let body := rest.take 60
  let after := rest.drop 60
  match tag with
  | 0 => some (.uninitialized, after)
  | 1 => do
    let (prefixLen, body) ← readLE 4 body
    let (key, body) ← readLE 16 body
    let (child0, body) ← readLE 4 body
    let (child1, _) ← readLE 4 body
    pure (.innerNode prefixLen key child0 child1, after)
  | 2 => do
    let (ownerSlot, body) ← readLE 1 body
    let body := body.drop 3
    let (key, body) ← readLE 16 body
    let (owner, body) ← readLE 32 body
    let (quantity, _) ← readLE 8 body
    pure (.leafNode ⟨ownerSlot, key, owner, quantity⟩, after)
  | 3 => do
    let (next, _) ← readLE 4 body
    pure (.freeNode next, after)
  | 4 => some (.lastFreeNode, after)
  | t + 5 => some (.defaultNode (t + 5) body, after)

/-- Decode `SLAB_HEADER_LAYOUT` (src/unnamed/part_002 lines 4-16):
`u32 bumpIndex`, 4 zero bytes, `u32 freeListLen`, 4 zero bytes,
`u32 freeListHead`, `u32 root`, `u32 leafCount`, 4 zero bytes. -/
def readHeader (bs : List ℕ) : Option (SlabHeader × List ℕ) := do
  let (bumpIndex, bs) ← readLE 4 bs
  let bs ← readZeros 4 bs
  let (freeListLen, bs) ← readLE 4 bs
  let bs ← readZeros 4 bs
  let (freeListHead, bs) ← readLE 4 bs
  let (root, bs) ← readLE 4 bs
  let (leafCount, bs) ← readLE 4 bs
  let bs ← readZeros 4 bs
  pure (⟨bumpIndex, freeListLen, freeListHead, root, leafCount⟩, bs)

/-- Decode a fixed count of slab nodes. -/
def readNodes : ℕ → List ℕ → Option (List SlabNode × List ℕ)
  | 0, bs => some ([], bs)
  | n + 1, bs => do
    let (node, bs) ← readNode bs
    let (nodes, bs) ← readNodes n bs
    pure (node :: nodes, bs)

/-- `SLAB_LAYOUT` decode (src/unnamed/part_002 lines 39-49): the header,
then a `seq` of nodes whose count is supplied by the
`offset(SLAB_HEADER_LAYOUT.layoutFor('bumpIndex'), ...)` external layout —
that is, the count is the header's own `bumpIndex` field. -/
def decodeSlab (bs : List ℕ) : Option (SlabHeader × List SlabNode) := do
  let (header, rest) ← readHeader bs
  let (nodes, _) ← readNodes header.bumpIndex rest
  pure (header, nodes)

/-- A 160-byte order-book slab buffer: a header carrying `bumpIndex = 1`
followed by 128 spare bytes — room for two 64-byte node slots. -/
def slabBufTwoSlots : List ℕ := 1 :: List.replicate 159 0

theorem readNodes_length (n : ℕ) :
    ∀ (bs : List ℕ) (ns : List SlabNode) (rest : List ℕ),
      readNodes n bs = some (ns, rest) → ns.length = n := by
  induction n with
  | zero =>
    intro bs ns rest h
    simp [readNodes] at h
    simp [h.1]
  | succ k ih =>
    intro bs ns rest h
    simp only [readNodes, Option.bind_eq_bind, Option.bind_eq_some] at h
    obtain ⟨⟨node, bs1⟩, _, ⟨⟨nodes, bs2⟩, hrec, hpure⟩⟩ := h
    simp only [pure, Option.some_inj, Prod.mk.injEq] at hpure
    rw [← hpure.1, List.length_cons, ih _ nodes _ hrec]

set_option maxRecDepth 10000 in
/-- C2 counterexample: on a 160-byte order-book buffer whose header says
`bumpIndex = 1`, the slab decode yields exactly one node even though the
128 bytes remaining after the 32-byte header would hold two 64-byte nodes:
the node count comes from the header's `bumpIndex` field, not from the
remaining buffer length. -/
theorem slab_node_count_counterexample :
    (decodeSlab slabBufTwoSlots).map (fun r => r.2.length) = some 1 ∧
      (slabBufTwoSlots.length - 32) / 64 = 2 := by
  constructor
  · decide
  · decide

/-- C2 (amended): whenever an order-book slab buffer decodes successfully,
the number of 64-byte nodes decoded after the header equals the header's
`bumpIndex` field (the count is read back out of the header by the
`offset(...)` external layout), regardless of how many bytes remain. -/
theorem decodeSlab_node_count (bs : List ℕ) (h : SlabHeader)
    (ns : List SlabNode) (hdec : decodeSlab bs = some (h, ns)) :
    ns.length = h.bumpIndex := by
  unfold decodeSlab at hdec
  cases hhead : readHeader bs with
  | none =>
    rw [hhead] at hdec
    simp at hdec
  | some hr =>
    obtain ⟨header, rest⟩ := hr
    rw [hhead] at hdec
    simp only [Option.bind_eq_bind, Option.some_bind] at hdec
    cases hnodes : readNodes header.bumpIndex rest with
    | none =>
      rw [hnodes] at hdec
      simp at hdec
    | some nr =>
      obtain ⟨nodes, rest2⟩ := nr
      rw [hnodes] at hdec
      simp only [Option.some_bind, pure, Option.some_inj,
        Prod.mk.injEq] at hdec
      obtain ⟨hh, hn⟩ := hdec
      subst hh
      subst hn
      exact readNodes_length _ _ _ _ hnodes

set_option maxRecDepth 10000 in
theorem decodeSlab_node_count_witness :
    ∃ h ns, decodeSlab slabBufTwoSlots = some (h, ns) ∧
      ns.length = h.bumpIndex :=
  ⟨⟨1, 0, 0, 0, 0⟩, [SlabNode.uninitialized],
    by decide, decodeSlab_node_count slabBufTwoSlots ⟨1, 0, 0, 0, 0⟩
      [SlabNode.uninitialized] (by decide)⟩

/-- A field of the fixed slab header struct: a named `u32` or a reserved
all-zero spacer of `n` bytes. -/
inductive HeaderField where
  | u32Field (name : String)
  | zeros (n : ℕ)
  deriving DecidableEq, Repr

/-- The field list of `SLAB_HEADER_LAYOUT` (src/unnamed/part_002 lines
4-16), in declaration order. -/
def SLAB_HEADER_LAYOUT : List HeaderField :=
  [.u32Field "bumpIndex", .zeros 4, .u32Field "freeListLen", .zeros 4,
    .u32Field "freeListHead", .u32Field "root", .u32Field "leafCount",
    .zeros 4]

/-- Byte span of a slab header field. -/
def headerFieldSpan : HeaderField → ℕ
  | .u32Field _ => 4
  | .zeros n => n

/-- The names of the `u32` fields of a header layout, in order. -/
def headerU32Names (fields : List HeaderField) : List String :=
  fields.filterMap fun f =>
    match f with
    | .u32Field n => some n
    | .zeros _ => none

/-- The number of zero-spacer fields of a header layout. -/
def headerZerosCount (fields : List HeaderField) : ℕ :=
  (fields.filter fun f =>
    match f with
    | .u32Field _ => false
    | .zeros _ => true).length

/-- C6 counterexample: the slab header does not consist of 4 `u32` fields
with two 4-byte spacers — it has five `u32` fields and three spacers. -/
theorem slab_header_shape_counterexample :
    ¬((headerU32Names SLAB_HEADER_LAYOUT).length = 4 ∧
      headerZerosCount SLAB_HEADER_LAYOUT = 2) := by
  decide

/-- C6 (amended): the slab header consists of five `u32` fields —
`bumpIndex`, `freeListLen`, `freeListHead`, `root`, `leafCount`, in that
order — interleaved with three 4-byte reserved/zero spacers, every field
spanning 4 bytes for a 32-byte total, before the node array. -/
theorem slab_header_layout_fields :
    (headerU32Names SLAB_HEADER_LAYOUT).length = 5 ∧
    headerZerosCount SLAB_HEADER_LAYOUT = 3 ∧
    headerU32Names SLAB_HEADER_LAYOUT =
      ["bumpIndex", "freeListLen", "freeListHead", "root", "leafCount"] ∧
    (SLAB_HEADER_LAYOUT.map headerFieldSpan).sum = 32 ∧
    ∀ f ∈ SLAB_HEADER_LAYOUT, headerFieldSpan f = 4 := by
  decide

/-! ## Pool schema (src/packages/pool/src/schema.ts) -/

/-- `POOL_STATE_TAG` (schema.ts line 64): `new BN('16a7874c7fb2301b', 'hex')`,
the 8-byte magic of the pool-state record. -/
def POOL_STATE_TAG : ℕ := 0x16a7874c7fb2301b

/-- `POOL_REQUEST_TAG` (schema.ts line 93): `new BN('220a6cbdcd1cc4cf', 'hex')`,
the 8-byte magic of the pool-request record. -/
def POOL_REQUEST_TAG : ℕ := 0x220a6cbdcd1cc4cf

/-- `BN.toBuffer('le', w)`: serialize a big number as `w` little-endian
bytes. -/
def toBufferLE : ℕ → ℕ → List ℕ
  | 0, _ => []
  | w + 1, n => n % 256 :: toBufferLE w (n / 256)

/-- `isPoolState(data)` (schema.ts lines 104-106): compares the first 8
bytes of the buffer with `POOL_REQUEST_TAG.toBuffer('le')` (an 8-byte
buffer, since the tag's top byte is nonzero). -/
def isPoolState (data : List ℕ) : Bool :=
  data.take 8 == toBufferLE 8 POOL_REQUEST_TAG

/-- C5 (code bug), evaluating `isPoolState` at the failing input: a buffer
whose first 8 bytes are the little-endian `POOL_STATE_TAG` — the magic the
pool-state record itself carries and that `decodePoolState` requires — is
rejected, while a buffer carrying the pool-request magic is accepted: the
code compares against `POOL_REQUEST_TAG` instead of `POOL_STATE_TAG`. -/
theorem isPoolState_wrong_tag :
    isPoolState (toBufferLE 8 POOL_STATE_TAG ++ List.replicate 32 0) = false ∧
    isPoolState (toBufferLE 8 POOL_REQUEST_TAG ++ List.replicate 32 0) = true := by
  decide

/-- The `PoolAction` union (schema.ts lines 48 and 81-85): `create(u64)`,
`redeem(u64)`, or `swap(Basket)` where a `Basket` is a vector of `i64`
quantities. -/
inductive PoolAction where
  | create (amount : ℕ)
  | redeem (amount : ℕ)
  | swap (quantities : List ℤ)
  deriving DecidableEq, Repr

/-- The `PoolRequest` union (schema.ts lines 37-46 and 87-102):
`initialize(u8, u8, u16)` (named `initPool` here), `getBasket(PoolAction)`,
or `transact(PoolAction)`, wrapped in the 8-byte `POOL_REQUEST_TAG`. -/
inductive PoolRequest where
  | initPool (vaultSignerNonce : ℕ) (assetsLength : ℕ)
      (customStateLength : ℕ)
  | getBasket (action : PoolAction)
  | transact (action : PoolAction)
  deriving DecidableEq, Repr

/-- Modelled from the spec: the borsh layout helpers
(`packages/pool/src/borsh.ts`, imported by schema.ts but not under `src/`)
— §4.1/§6 fix them as little-endian fixed-width integers, `i64` as 64-bit
two's complement, a vector as a length prefix (a `u32` here) followed by
its elements, `rustEnum` as a one-byte discriminant assigned in
declaration order followed by the selected variant's payload, and `tagged`
as an 8-byte little-endian magic preceding the payload.  `encodeI64`
serializes one `i64`. -/
def encodeI64 (v : ℤ) : List ℕ := toBufferLE 8 (v % (2 ^ 64 : ℤ)).toNat

/-- Modelled from the spec: borsh `vec(elem)` — a `u32` length prefix then
the encoded elements. -/
def encodeVec {α : Type} (enc : α → List ℕ) (xs : List α) : List ℕ :=
  toBufferLE 4 xs.length ++ (xs.map enc).flatten

/-- Encoding of `PoolAction` (schema.ts lines 81-85): a one-byte
discriminant — 0 `create`, 1 `redeem`, 2 `swap` — then the payload. -/
def encodePoolAction : PoolAction → List ℕ
  | .create amount => 0 :: toBufferLE 8 amount
  | .redeem amount => 1 :: toBufferLE 8 amount
  | .swap quantities => 2 :: encodeVec encodeI64 quantities

/-- `encodePoolRequest` (schema.ts lines 95-102 and 112-116): the 8-byte
`POOL_REQUEST_TAG`, a one-byte discriminant — 0 `initialize`
(`u8 vaultSignerNonce`, `u8 assetsLength`, `u16 customStateLength`),
1 `getBasket`, 2 `transact` — then the variant payload. -/
def encodePoolRequest : PoolRequest → List ℕ
  | .initPool nonce assetsLen customLen =>
    toBufferLE 8 POOL_REQUEST_TAG ++
      0 :: (toBufferLE 1 nonce ++ toBufferLE 1 assetsLen ++
        toBufferLE 2 customLen)
  | .getBasket a => toBufferLE 8 POOL_REQUEST_TAG ++ 1 :: encodePoolAction a
  | .transact a => toBufferLE 8 POOL_REQUEST_TAG ++ 2 :: encodePoolAction a

/-- Modelled from the spec: borsh `i64` decode — 8 little-endian bytes
interpreted as 64-bit two's complement. -/
def readI64 (bs : List ℕ) : Option (ℤ × List ℕ) :=
  match readLE 8 bs with
  | none => none
  | some (n, rest) =>
    some (if n < 2 ^ 63 then (n : ℤ) else (n : ℤ) - 2 ^ 64, rest)

/-- Decode a fixed count of elements with a given element decoder. -/
def readList {α : Type} (read : List ℕ → Option (α × List ℕ)) :
    ℕ → List ℕ → Option (List α × List ℕ)
  | 0, bs => some ([], bs)
  | n + 1, bs => do
    let (x, bs) ← read bs
    let (xs, bs) ← readList read n bs
    pure (x :: xs, bs)

/-- Modelled from the spec: borsh `vec` decode — read the `u32` count,
then that many elements, failing if the buffer ends early. -/
def readVec {α : Type} (read : List ℕ → Option (α × List ℕ))
    (bs : List ℕ) : Option (List α × List ℕ) := do
  let (n, bs) ← readLE 4 bs
  readList read n bs

/-- Decode one `PoolAction`: the one-byte discriminant selects the
variant; an out-of-range discriminant fails. -/
def readPoolAction (bs : List ℕ) : Option (PoolAction × List ℕ) :=
  match bs with
  | [] => none
  | d :: rest =>
    match d with
    | 0 => (readLE 8 rest).map fun r => (.create r.1, r.2)
    | 1 => (readLE 8 rest).map fun r => (.redeem r.1, r.2)
    | 2 => (readVec readI64 rest).map fun r => (.swap r.1, r.2)
    | _ + 3 => none

/-- `decodePoolRequest` (schema.ts lines 118-120): check the 8-byte
`POOL_REQUEST_TAG` (failing on mismatch), read the one-byte discriminant,
then the variant payload; trailing bytes are ignored. -/
def decodePoolRequest (bs : List ℕ) : Option PoolRequest := do
  let (tag, bs) ← readLE 8 bs
  if tag = POOL_REQUEST_TAG then
    match bs with
    | [] => none
    | d :: rest =>
      match d with
      | 0 => do
        let (nonce, rest) ← readLE 1 rest
        let (assetsLen, rest) ← readLE 1 rest
        let (customLen, _) ← readLE 2 rest
        pure (.initPool nonce assetsLen customLen)
      | 1 => (readPoolAction rest).map fun r => .getBasket r.1
      | 2 => (readPoolAction rest).map fun r => .transact r.1
      | _ + 3 => none
  else none

/-- The in-range condition for a `PoolAction`: `u64` amounts fit 64 bits,
swap quantities are `i64` values and the vector length fits its `u32`
prefix. -/
def PoolAction.Valid : PoolAction → Prop
  | .create amount => amount < 2 ^ 64
  | .redeem amount => amount < 2 ^ 64
  | .swap quantities =>
    (∀ q ∈ quantities, -(2 ^ 63) ≤ q ∧ q < 2 ^ 63) ∧
      quantities.length < 2 ^ 32

/-- The in-range condition for a `PoolRequest`: each field fits its
declared width. -/
def PoolRequest.Valid : PoolRequest → Prop
  | .initPool nonce assetsLen customLen =>
    nonce < 2 ^ 8 ∧ assetsLen < 2 ^ 8 ∧ customLen < 2 ^ 16
  | .getBasket a => a.Valid
  | .transact a => a.Valid

theorem readLE_toBufferLE (w : ℕ) :
    ∀ (n : ℕ) (rest : List ℕ), n < 2 ^ (8 * w) →
      readLE w (toBufferLE w n ++ rest) = some (n, rest) := by
  induction w with
  | zero =>
    intro n rest h
    have hn : n = 0 := by simpa using h
    subst hn
    simp [toBufferLE, readLE]
  | succ k ih =>
    intro n rest h
    have hdiv : n / 256 < 2 ^ (8 * k) := by
      apply Nat.div_lt_of_lt_mul
      calc n < 2 ^ (8 * (k + 1)) := h
        _ = 256 * 2 ^ (8 * k) := by ring
    rw [toBufferLE, List.cons_append, readLE, ih (n / 256) rest hdiv]
    simp [Nat.mod_add_div]

theorem i64_twos_complement (v : ℤ) (hlo : -(2 ^ 63) ≤ v)
    (hhi : v < 2 ^ 63) :
    (if (v % (2 ^ 64 : ℤ)).toNat < 2 ^ 63 then
      (((v % (2 ^ 64 : ℤ)).toNat : ℕ) : ℤ)
    else (((v % (2 ^ 64 : ℤ)).toNat : ℕ) : ℤ) - 2 ^ 64) = v := by
  have e63 : ((2 : ℤ) ^ 63) = 9223372036854775808 := by norm_num
  have e64 : ((2 : ℤ) ^ 64) = 18446744073709551616 := by norm_num
  have e63n : ((2 : ℕ) ^ 63) = 9223372036854775808 := by norm_num
  rw [e63, e64, e63n] at *
  split_ifs with hc
  · omega
  · omega

theorem readI64_encodeI64 (v : ℤ) (rest : List ℕ)
    (hlo : -(2 ^ 63) ≤ v) (hhi : v < 2 ^ 63) :
    readI64 (encodeI64 v ++ rest) = some (v, rest) := by
  have hn : (v % (2 ^ 64 : ℤ)).toNat < 2 ^ (8 * 8) := by
    have e64 : ((2 : ℤ) ^ 64) = 18446744073709551616 := by norm_num
    have e64n : ((2 : ℕ) ^ (8 * 8)) = 18446744073709551616 := by norm_num
    rw [e64n, e64]
    omega
  rw [readI64, encodeI64,
    readLE_toBufferLE 8 (v % (2 ^ 64 : ℤ)).toNat rest hn]
  show some (if (v % (2 ^ 64 : ℤ)).toNat < 2 ^ 63 then
      (((v % (2 ^ 64 : ℤ)).toNat : ℕ) : ℤ)
    else (((v % (2 ^ 64 : ℤ)).toNat : ℕ) : ℤ) - 2 ^ 64, rest) =
    some (v, rest)
  rw [i64_twos_complement v hlo hhi]

theorem readList_flatten {α : Type} (read : List ℕ → Option (α × List ℕ))
    (enc : α → List ℕ) (P : α → Prop)
    (hgood : ∀ x rest, P x → read (enc x ++ rest) = some (x, rest)) :
    ∀ (xs : List α) (rest : List ℕ), (∀ x ∈ xs, P x) →
      readList read xs.length ((xs.map enc).flatten ++ rest) =
        some (xs, rest) := by
  intro xs
  induction xs with
  | nil =>
    intro rest _
    simp [readList]
  | cons hd tl ih =>
    intro rest hP
    have h1 : read (enc hd ++ ((tl.map enc).flatten ++ rest)) =
        some (hd, (tl.map enc).flatten ++ rest) :=
      hgood hd _ (hP hd (List.mem_cons_self hd tl))
    have h2 : readList read tl.length ((tl.map enc).flatten ++ rest) =
        some (tl, rest) :=
      ih rest (fun x hx => hP x (List.mem_cons_of_mem hd hx))
    rw [List.map_cons, List.flatten_cons, List.length_cons,
      List.append_assoc, readList]
    rw [h1]
    simp [h2]

theorem readVec_encodeVec {α : Type} (read : List ℕ → Option (α × List ℕ))
    (enc : α → List ℕ) (P : α → Prop)
    (hgood : ∀ x rest, P x → read (enc x ++ rest) = some (x, rest))
    (xs : List α) (rest : List ℕ) (hP : ∀ x ∈ xs, P x)
    (hlen : xs.length < 2 ^ 32) :
    readVec read (encodeVec enc xs ++ rest) = some (xs, rest) := by
  have hlen' : xs.length < 2 ^ (8 * 4) := by
    simpa using hlen
  rw [readVec, encodeVec, List.append_assoc,
    readLE_toBufferLE 4 xs.length _ hlen']
  simp [readList_flatten read enc P hgood xs rest hP]

theorem readPoolAction_encode (a : PoolAction) (rest : List ℕ)
    (hv : a.Valid) :
    readPoolAction (encodePoolAction a ++ rest) = some (a, rest) := by
  cases a with
  | create amount =>
    have h8 : amount < 2 ^ (8 * 8) := by simpa using hv
    simp only [encodePoolAction, List.cons_append, readPoolAction]
    rw [readLE_toBufferLE 8 amount rest h8]
    rfl
  | redeem amount =>
    have h8 : amount < 2 ^ (8 * 8) := by simpa using hv
    simp only [encodePoolAction, List.cons_append, readPoolAction]
    rw [readLE_toBufferLE 8 amount rest h8]
    rfl
  | swap quantities =>
    have hq : ∀ q ∈ quantities, -(2 ^ 63 : ℤ) ≤ q ∧ q < 2 ^ 63 := hv.1
    have hl : quantities.length < 2 ^ 32 := hv.2
    simp only [encodePoolAction, List.cons_append, readPoolAction]
    rw [readVec_encodeVec readI64 encodeI64
      (fun q => -(2 ^ 63 : ℤ) ≤ q ∧ q < 2 ^ 63)
      (fun x r hx => readI64_encodeI64 x r hx.1 hx.2) quantities rest hq hl]
    rfl

theorem decodePoolRequest_encode_append (r : PoolRequest) (extra : List ℕ)
    (hv : r.Valid) :
    decodePoolRequest (encodePoolRequest r ++ extra) = some r := by
  have htag : POOL_REQUEST_TAG < 2 ^ (8 * 8) := by
    norm_num [POOL_REQUEST_TAG]
  cases r with
  | initPool nonce assetsLen customLen =>
    have h1 : nonce < 2 ^ (8 * 1) := by simpa using hv.1
    have h2 : assetsLen < 2 ^ (8 * 1) := by simpa using hv.2.1
    have h3 : customLen < 2 ^ (8 * 2) := by simpa using hv.2.2
    rw [encodePoolRequest, decodePoolRequest]
    rw [List.append_assoc, readLE_toBufferLE 8 POOL_REQUEST_TAG _ htag]
    show (do
      let r1 ← readLE 1 ((toBufferLE 1 nonce ++ toBufferLE 1 assetsLen ++
        toBufferLE 2 customLen) ++ extra)
      let r2 ← readLE 1 r1.2
      let r3 ← readLE 2 r2.2
      pure (PoolRequest.initPool r1.1 r2.1 r3.1) : Option PoolRequest) =
      some (PoolRequest.initPool nonce assetsLen customLen)
    rw [show (toBufferLE 1 nonce ++ toBufferLE 1 assetsLen ++
      toBufferLE 2 customLen) ++ extra = toBufferLE 1 nonce ++
      (toBufferLE 1 assetsLen ++ (toBufferLE 2 customLen ++ extra)) by
        simp [List.append_assoc]]
    rw [readLE_toBufferLE 1 nonce _ h1]
    show (do
      let r2 ← readLE 1 (toBufferLE 1 assetsLen ++
        (toBufferLE 2 customLen ++ extra))
      let r3 ← readLE 2 r2.2
      pure (PoolRequest.initPool nonce r2.1 r3.1) : Option PoolRequest) =
      some (PoolRequest.initPool nonce assetsLen customLen)
    rw [readLE_toBufferLE 1 assetsLen _ h2]
    show (do
      let r3 ← readLE 2 (toBufferLE 2 customLen ++ extra)
      pure (PoolRequest.initPool nonce assetsLen r3.1) : Option PoolRequest) =
      some (PoolRequest.initPool nonce assetsLen customLen)
    rw [readLE_toBufferLE 2 customLen _ h3]
    rfl
  | getBasket a =>
    rw [encodePoolRequest, decodePoolRequest]
    rw [List.append_assoc, readLE_toBufferLE 8 POOL_REQUEST_TAG _ htag]
    show Option.map (fun r => PoolRequest.getBasket r.1)
      (readPoolAction (encodePoolAction a ++ extra)) =
      some (PoolRequest.getBasket a)
    rw [readPoolAction_encode a extra hv]
    rfl
  | transact a =>
    rw [encodePoolRequest, decodePoolRequest]
    rw [List.append_assoc, readLE_toBufferLE 8 POOL_REQUEST_TAG _ htag]
    show Option.map (fun r => PoolRequest.transact r.1)
      (readPoolAction (encodePoolAction a ++ extra)) =
      some (PoolRequest.transact a)
    rw [readPoolAction_encode a extra hv]
    rfl

/-- C9: for every `PoolRequest` value — each of the `initialize`,
`getBasket` and `transact` variants over every nested `PoolAction` —
whose fields are within their declared widths and whose encoding fits the
1000-byte encode buffer, `decodePoolRequest(encodePoolRequest(r)) = r`. -/
theorem decodePoolRequest_encodePoolRequest (r : PoolRequest)
    (hv : r.Valid) (hfit : (encodePoolRequest r).length ≤ 1000) :
    decodePoolRequest (encodePoolRequest r) = some r := by
  have h := decodePoolRequest_encode_append r [] hv
  simpa using h

theorem decodePoolRequest_encodePoolRequest_witness :
    decodePoolRequest (encodePoolRequest
      (PoolRequest.transact (PoolAction.swap [5, -3]))) =
      some (PoolRequest.transact (PoolAction.swap [5, -3])) :=
  decodePoolRequest_encodePoolRequest
    (PoolRequest.transact (PoolAction.swap [5, -3]))
    (by
      constructor
      · intro q hq
        simp only [List.mem_cons, List.not_mem_nil, or_false] at hq
        rcases hq with h | h <;> rw [h] <;> norm_num
      · norm_num)
    (by norm_num [encodePoolRequest, encodePoolAction, encodeVec, encodeI64,
      toBufferLE, POOL_REQUEST_TAG])
